import Mathlib

/-!
# Verification of the fluxity-simple-document-processor core

This file gives a shallow embedding, in Lean 4, of the two algorithmic cores of
the repository:

* the similarity scorer and field validation engine of
  `src/validation-service.ts` (`cleanCompanyName`, `levenshteinDistance`,
  `calculateSimilarity`, `simpleFuzzyMatch`, `validateField`,
  `validateDocumentFields`), and
* the Textract block-graph decoder of the document processor
  (`extractText`, `findValueBlock`, `getText`, `extractTable`).

JavaScript semantics are modelled explicitly:

* JS numbers are modelled by `Rat` (all arithmetic performed by the code stays
  well within the range where IEEE doubles behave like exact rationals, except
  for the final division, whose rounding error is far below the 1/(2·maxLen)
  gap to the nearest half-integer, so `Math.round` agrees with the rational
  rounding modelled here);
* JS strings are modelled by `String` viewed as its list of characters
  (all relevant strings are ASCII);
* JS arrays (which may carry negative-integer *properties* that are not
  elements, and holes below their length) are modelled by `JsArray`;
* `null`/`undefined` are modelled with `Option`; JS truthiness tests are
  spelled out at each use site.
-/

namespace Fluxity

/-! ## JS string primitives -/

/-- JS `\w` word character class: `[A-Za-z0-9_]`. -/
def isWordChar (c : Char) : Bool :=
  (('a' ≤ c && c ≤ 'z') || ('A' ≤ c && c ≤ 'Z') || ('0' ≤ c && c ≤ '9') || c = '_')

/-- JS `\s` whitespace class (ASCII whitespace, NBSP, and the Unicode space
characters recognised by JS regexes). -/
def jsSpace (c : Char) : Bool :=
  (9 ≤ c.toNat && c.toNat ≤ 13) || c.toNat = 32 || c.toNat = 160 || c.toNat = 0x1680 ||
    (0x2000 ≤ c.toNat && c.toNat ≤ 0x200a) || c.toNat = 0x2028 || c.toNat = 0x2029 ||
    c.toNat = 0x202f || c.toNat = 0x205f || c.toNat = 0x3000 || c.toNat = 0xfeff

/-- The punctuation class removed by `cleanCompanyName`:
`[.,\/#!$%\^&\*;:{}=\-_~()]` together with the backtick (written via its
code point to keep the source clean). -/
def isPunct (c : Char) : Bool :=
  c = '.' || c = ',' || c = '/' || c = '#' || c = '!' || c = '$' || c = '%' ||
  c = '^' || c = '&' || c = '*' || c = ';' || c = ':' || c = Char.ofNat 123 ||
  c = Char.ofNat 125 || c = '=' || c = '-' || c = '_' || c = Char.ofNat 96 ||
  c = '~' || c = '(' || c = ')'

/-- Lowercasing, `String.toLowerCase` (ASCII-faithful). -/
def toLowerStr (s : String) : String :=
  ⟨s.data.map Char.toLower⟩

/-- `startsWith` on character lists: `startsW cs pat` is true when `pat` is an
initial segment of `cs`. -/
def startsW : List Char → List Char → Bool
  | _, [] => true
  | [], _ :: _ => false
  | c :: cs, p :: ps => c = p && startsW cs ps

/-- JS `hay.includes(needle)`: `needle` occurs contiguously in `hay`. -/
def hasSub : List Char → List Char → Bool
  | [], needle => needle.isEmpty
  | c :: cs, needle => startsW (c :: cs) needle || hasSub cs needle

/-- JS `s.includes(t)`. -/
def jsIncludes (s t : String) : Bool :=
  hasSub s.data t.data

/-! ## `cleanCompanyName` (suffix stripping, punctuation removal, whitespace
collapse, trim) -/

/-- The legal-entity suffix vocabulary of the regex
`\b(inc|incorporated|corp|corporation|llc|ltd|limited|co|company|plc|gmbh|sa|ag|bv|nv)\b`,
in the regex's alternation order. -/
def suffixWords : List (List Char) :=
  [ "inc".data, "incorporated".data, "corp".data, "corporation".data,
    "llc".data, "ltd".data, "limited".data, "co".data, "company".data,
    "plc".data, "gmbh".data, "sa".data, "ag".data, "bv".data, "nv".data ]

/-- Case-insensitively consume the word `w` (given lowercase) from the front of
`cs`; return the rest on success (the `i` regex flag). -/
def ciDrop : List Char → List Char → Option (List Char)
  | [], cs => some cs
  | _ :: _, [] => none
  | w :: ws, c :: cs => if c.toLower = w then ciDrop ws cs else none

/-- Try each suffix word, in alternation order, at the current position: the
word must match case-insensitively and be followed by a word boundary (end of
input or a non-word character).  Returns the remaining input after the match. -/
def trySuffix (cs : List Char) : Option (List Char) :=
  suffixWords.findSome? fun w =>
    match ciDrop w cs with
    | some rest =>
      match rest with
      | [] => some rest
      | c :: _ => if isWordChar c then none else some rest
    | none => none

/-- The global, left-to-right replacement of `\b(inc|…|nv)\b` by the empty
string, written with explicit fuel so that it is structurally recursive (and
hence evaluates in the kernel).  The fuel only pays for termination: every
step consumes at least one character, so `fuel = cs.length` never runs out.
The boolean argument records whether the character immediately before the
current position is a word character (for the leading `\b`; every suffix word
starts with a letter).  After a match the scan resumes right after the
matched word, whose last letter is a word character. -/
def stripGo : Nat → Bool → List Char → List Char
  | 0, _, cs => cs
  | fuel + 1, prevW, cs =>
    match cs with
    | [] => []
    | c :: rest =>
      match (if prevW then none else trySuffix (c :: rest)) with
      | some rem => stripGo fuel true rem
      | none => c :: stripGo fuel (isWordChar c) rest

/-- Entry point of the suffix-word replacement. -/
def stripSuffixWords (prevW : Bool) (cs : List Char) : List Char :=
  stripGo cs.length prevW cs

/-- `replace(/\s+/g, ' ')`: collapse each maximal whitespace run to a single
space.  The boolean argument tracks whether the scan is inside a whitespace
run (the run's first character has already emitted the single space). -/
def collapseGo : Bool → List Char → List Char
  | _, [] => []
  | inRun, c :: rest =>
    if jsSpace c then
      if inRun then collapseGo true rest else ' ' :: collapseGo true rest
    else c :: collapseGo false rest

/-- Entry point of the whitespace collapse. -/
def collapseWs (cs : List Char) : List Char :=
  collapseGo false cs

/-- JS `String.prototype.trim`: drop whitespace from both ends. -/
def trimWs (cs : List Char) : List Char :=
  ((cs.dropWhile jsSpace).reverse.dropWhile jsSpace).reverse

/-- `cleanCompanyName`: strip legal-entity suffix words, remove punctuation,
collapse whitespace, trim. -/
def cleanCompanyName (s : String) : String :=
  ⟨trimWs (collapseWs ((stripSuffixWords false s.data).filter (fun c => !isPunct c)))⟩

/-! ## `levenshteinDistance`

The source fills the classic (m+1)×(n+1) table `dp` row by row:
`dp[i][0] = i`, `dp[0][j] = j`, and
`dp[i][j] = dp[i-1][j-1]` when `s1[i-1] = s2[j-1]`, else
`1 + min(dp[i-1][j], dp[i][j-1], dp[i-1][j-1])`.
We model the row-by-row computation: `levRow a t prev` turns row `i-1`
(`prev`) into row `i`, where `a = s1[i-1]`; `levAux` walks the row keeping the
diagonal, left, and upper entries. -/

/-- Inner loop of the DP: `bs` is the remaining suffix of `s2`, `diag` is
`dp[i-1][j-1]`, `left` is `dp[i][j-1]`, and `ups` holds `dp[i-1][j…]`. -/
def levAux (a : Char) : List Char → Nat → Nat → List Nat → List Nat
  | [], _, _, _ => []
  | _ :: _, _, _, [] => []
  | b :: bs, diag, left, up :: ups =>
    let cur := if a = b then diag else 1 + min up (min left diag)
    cur :: levAux a bs up cur ups

/-- One row step of the DP (row `i-1` to row `i`, `a = s1[i-1]`). -/
def levRow (a : Char) (t : List Char) (prev : List Nat) : List Nat :=
  match prev with
  | [] => []
  | p0 :: ps => (p0 + 1) :: levAux a t p0 (p0 + 1) ps

/-- `levenshteinDistance(s1, s2)`: final cell `dp[m][n]` of the table. -/
def levenshteinDistance (s t : String) : Nat :=
  ((s.data.foldl (fun prev a => levRow a t.data prev) (List.range (t.length + 1))).getLast?).getD 0

/-! ## `calculateSimilarity` -/

/-- The Levenshtein ratio `((maxLen - distance) / maxLen) * 100` computed by
the source: `maxLen` is taken from the ORIGINAL input strings, while the
distance is between the cleaned strings. -/
def simRatio (s1 s2 : String) : Rat :=
  let maxLen := max s1.length s2.length
  ((maxLen : Rat) - (levenshteinDistance (cleanCompanyName s1) (cleanCompanyName s2) : Rat))
    / (maxLen : Rat) * 100

/-- `calculateSimilarity`: 95 on equal cleaned names; otherwise the Levenshtein
ratio, boosted by 15 (capped at 95) when one RAW input contains the other. -/
def calculateSimilarity (s1 s2 : String) : Rat :=
  let cleanS1 := cleanCompanyName s1
  let cleanS2 := cleanCompanyName s2
  if cleanS1 = cleanS2 then 95
  else
    let maxLen := max s1.length s2.length
    if maxLen = 0 then 100
    else
      let ratio := simRatio s1 s2
      if jsIncludes s1 s2 || jsIncludes s2 s1 then min (ratio + 15) 95
      else ratio

/-! ## Field validation engine (`validation-service.ts`) -/

/-- JS `Math.round` (round half toward +∞) on the `Rat` model of JS numbers. -/
def jsRound (q : Rat) : Int :=
  (q + 1 / 2).floor

/-- Truthiness of a `string | null` value: `null` and `''` are falsy. -/
def jsTruthyOpt (o : Option String) : Bool :=
  match o with
  | none => false
  | some s => s ≠ ""

structure MasterDataItem where
  code : String
  name : String
  description : Option String := none
deriving DecidableEq

inductive VStatus where
  | exact
  | fuzzy_high
  | fuzzy_medium
  | fuzzy_low
  | no_match
deriving DecidableEq

/-- An `alternatives` entry `{code, name, score}`; the score has been passed
through `Math.round`. -/
structure Alt where
  code : String
  name : String
  score : Int
deriving DecidableEq

structure ValidationResult where
  field : String
  extracted_value : String
  matched_code : Option String
  matched_name : Option String
  confidence : Rat
  status : VStatus
  alternatives : List Alt
deriving DecidableEq

/-- The JSON object parsed from the disambiguation model's reply:
`{selected_index, confidence, reasoning}` (the reasoning is never read).
A failed API call or unparsable reply is modelled by `none` at the call site. -/
structure GptResponse where
  selected_index : Int
  confidence : Rat
deriving DecidableEq

structure GptSelection where
  code : String
  name : String
  confidence : Rat
deriving DecidableEq

/-- The `dataTypeMap` of `validateField`, as an association list. -/
def dataTypeMapList : List (String × String) :=
  [ ("invoicing_party", "vendor"), ("supplier_name", "vendor"), ("vendor_name", "vendor"),
    ("gl_account", "gl_account"), ("cost_center", "cost_center"),
    ("company_code", "company_code"), ("document_type", "document_type"),
    ("tax_code", "tax_code"), ("profit_center", "profit_center"),
    ("transaction_type", "transaction_type"), ("debit_credit", "debit_credit") ]

/-- `const dataType = dataTypeMap[fieldName] || fieldName`. -/
def dataTypeFor (fieldName : String) : String :=
  match dataTypeMapList.lookup fieldName with
  | some t => t
  | none => fieldName

/-- Stable descending insertion used to model the JS stable
`sort((a, b) => b[1] - a[1])`: an element is inserted after the existing
entries with a strictly greater score and before ties, so earlier elements
win ties, exactly as a stable sort does.  A stable sort for a total preorder
is extensionally unique, so this models `Array.prototype.sort` (stable per
ECMA-262) on this comparator. -/
def insertDesc (x : String × Rat) : List (String × Rat) → List (String × Rat)
  | [] => [x]
  | y :: ys => if x.2 > y.2 then x :: y :: ys else y :: insertDesc x ys

/-- Stable sort, descending by score. -/
def sortByScoreDesc (l : List (String × Rat)) : List (String × Rat) :=
  l.foldr insertDesc []

/-- `simpleFuzzyMatch(query, choices, limit)`: score every choice with
`calculateSimilarity` on the lowercased strings, sort descending (stable), and
keep the first `limit` entries. -/
def simpleFuzzyMatch (query : String) (choices : List String) (limit : Nat) :
    List (String × Rat) :=
  (sortByScoreDesc (choices.map fun choice =>
    (choice, calculateSimilarity (toLowerStr query) (toLowerStr choice)))).take limit

/-- The `alternatives` array of `validateField`: fuzzy matches resolved back to
master-data items (`masterData.find(i => i.name === name)!` — the non-null
assertion cannot fail because every fuzzy-match name is drawn from
`masterData`; the junk fallback models that dead branch) with rounded score. -/
def fuzzyAlternatives (v : String) (md : List MasterDataItem) : List Alt :=
  (simpleFuzzyMatch v (md.map (·.name)) 20).map fun p =>
    match md.find? (fun i => i.name == p.1) with
    | some item => { code := item.code, name := item.name, score := jsRound p.2 }
    | none => { code := "", name := p.1, score := jsRound p.2 }

/-- The exact-match predicate of `validateField` (case-insensitive equality
against code or name). -/
def exactMatchPred (v : String) (item : MasterDataItem) : Bool :=
  toLowerStr item.code == toLowerStr v || toLowerStr item.name == toLowerStr v

/-- `selectBestMatchWithGPT`: validate the model's `selected_index` against the
candidate list; on a valid selection return its code/name with
`result.confidence || selected.score`.  `resp = none` models an API error or
a reply the `catch` swallows (the function then returns `null`). -/
def selectBestMatchWithGPT (resp : Option GptResponse)
    (candidates : List Alt) : Option GptSelection :=
  match resp with
  | none => none
  | some r =>
    if 0 < r.selected_index ∧ r.selected_index ≤ (candidates.length : Int) then
      match candidates.get? (r.selected_index - 1).toNat with
      | some selected =>
        some { code := selected.code, name := selected.name,
               confidence := if r.confidence = 0 then (selected.score : Rat) else r.confidence }
      | none => none
    else none

/-- The final `no_match` fallback object of `validateField`
(`alternatives[0]?.code || null`, etc.; note `||` turns an empty-string code
or name into `null`). -/
def noMatchResult (fieldName v : String) (alternatives : List Alt) : ValidationResult :=
  { field := fieldName
    extracted_value := v
    matched_code := match alternatives with
      | a :: _ => if a.code = "" then none else some a.code
      | [] => none
    matched_name := match alternatives with
      | a :: _ => if a.name = "" then none else some a.name
      | [] => none
    confidence := match alternatives with
      | a :: _ => (a.score : Rat)
      | [] => 0
    status := .no_match
    alternatives := alternatives.take 5 }

/-- The fuzzy tail of `validateField` (everything after the exact-match check
fails): auto-accept above 85, escalate above 60 to the disambiguation model,
otherwise (or when the model declines) fall back to `no_match`. -/
def validateFieldFuzzy (fieldName v : String) (alternatives : List Alt)
    (resp : Option GptResponse) : ValidationResult :=
  match alternatives with
  | a0 :: rest =>
    if 85 < a0.score then
      { field := fieldName, extracted_value := v, matched_code := some a0.code,
        matched_name := some a0.name, confidence := (a0.score : Rat),
        status := if 90 < a0.score then .fuzzy_high else .fuzzy_medium,
        alternatives := rest.take 5 }
    else if 60 < a0.score then
      match selectBestMatchWithGPT resp (alternatives.take 10) with
      | some sel =>
        { field := fieldName, extracted_value := v, matched_code := some sel.code,
          matched_name := some sel.name, confidence := sel.confidence,
          status := if 75 < sel.confidence then .fuzzy_medium else .fuzzy_low,
          alternatives := (alternatives.filter fun a => a.code ≠ sel.code).take 5 }
      | none => noMatchResult fieldName v alternatives
    else noMatchResult fieldName v alternatives
  | [] => noMatchResult fieldName v alternatives

/-- `validateField(extractedValue, fieldName, clientId, documentContext)`.

The two awaited collaborators are passed as data: `provider` stands for
`fetchMasterData(clientId, ·)` (the client id is fixed by the caller), and
`resp` is the parsed reply of the single possible call to the disambiguation
model (`none` when the call fails or returns nothing usable). -/
def validateField (extractedValue : Option String) (fieldName : String)
    (provider : String → List MasterDataItem) (resp : Option GptResponse) :
    ValidationResult :=
  if jsTruthyOpt extractedValue = false then
    { field := fieldName, extracted_value := "", matched_code := none,
      matched_name := none, confidence := 0, status := .no_match, alternatives := [] }
  else
    let v := extractedValue.getD ""
    let md := provider (dataTypeFor fieldName)
    if md.length = 0 then
      { field := fieldName, extracted_value := v, matched_code := none,
        matched_name := none, confidence := 0, status := .no_match, alternatives := [] }
    else
      match md.find? (exactMatchPred v) with
      | some exactMatch =>
        { field := fieldName, extracted_value := v, matched_code := some exactMatch.code,
          matched_name := some exactMatch.name, confidence := 100, status := .exact,
          alternatives := [] }
      | none => validateFieldFuzzy fieldName v (fuzzyAlternatives v md) resp

/-- `LIST_MATCH_FIELDS`: the 13 configured fields, in declaration order, with
their display metadata (max length, description). -/
def LIST_MATCH_FIELDS : List (String × Nat × String) :=
  [ ("company_code", 4, "Company Code"),
    ("transaction_type", 1, "Transaction Type (1=Invoice, 2=Credit)"),
    ("invoicing_party", 10, "Vendor/Invoicing Party"),
    ("document_type", 2, "Document Type"),
    ("gl_account", 10, "GL Account"),
    ("debit_credit", 1, "Debit/Credit (S=Debit, H=Credit)"),
    ("tax_code", 2, "Tax Code"),
    ("tax_jurisdiction", 15, "Tax Jurisdiction"),
    ("assignment", 18, "Assignment Reference"),
    ("cost_center", 10, "Cost Center"),
    ("profit_center", 10, "Profit Center"),
    ("order_number", 12, "Order Number"),
    ("wbs_element", 24, "WBS Element") ]

/-- `Object.keys(LIST_MATCH_FIELDS)`. -/
def listMatchFieldNames : List String :=
  LIST_MATCH_FIELDS.map (·.1)

/-- `validateDocumentFields(extractedFields, clientId)`: iterate the configured
field names and validate exactly those whose extracted value is truthy.
`fields` models property access on `extractedFields`. -/
def validateDocumentFields (fields : String → Option String)
    (provider : String → List MasterDataItem) (resp : Option GptResponse) :
    List (String × ValidationResult) :=
  listMatchFieldNames.filterMap fun fieldName =>
    if jsTruthyOpt (fields fieldName) then
      some (fieldName, validateField (fields fieldName) fieldName provider resp)
    else none

/-! ## Block-graph decoder (`extractText` and helpers)

Textract blocks are modelled by `Block`; absent JSON properties are `none`.
The `Map`s built in the first pass (`blockMap`, `keyMap`, …) are modelled as
lookup functions over the block list: under the document invariant that block
identifiers are unique, `Map.get` coincides with first-match search, and
`Map.forEach` iterates in input order, i.e. over the filtered list. -/

structure Relationship where
  /-- The JSON `Type` field (`CHILD` or `VALUE`). -/
  relType : String
  /-- The JSON `Ids` field; an absent list behaves like an empty one. -/
  ids : List String
deriving DecidableEq

structure Block where
  id : String
  blockType : String
  text : Option String := none
  entityTypes : List String := []
  confidence : Option Rat := none
  /-- Opaque stand-in for the `Geometry` payload. -/
  geometry : Option String := none
  rowIndex : Option Int := none
  columnIndex : Option Int := none
  rowSpan : Option Int := none
  columnSpan : Option Int := none
  relationships : List Relationship := []
deriving DecidableEq

/-- A JS array: a length together with integer-keyed entries.  Writing at a
negative index stores a plain property that is invisible to `length`,
iteration, `filter` and `map`; writing at `k ≥ length` grows `length` to
`k + 1`, leaving holes below. -/
structure JsArray (α : Type) where
  length : Nat
  entries : List (Int × α)
deriving DecidableEq

/-- Replace the entry at key `k`, or append one. -/
def setEntries {α : Type} (k : Int) (v : α) : List (Int × α) → List (Int × α)
  | [] => [(k, v)]
  | (k', v') :: rest => if k' = k then (k, v) :: rest else (k', v') :: setEntries k v rest

def JsArray.empty {α : Type} : JsArray α := ⟨0, []⟩

def JsArray.set {α : Type} (a : JsArray α) (k : Int) (v : α) : JsArray α :=
  ⟨if 0 ≤ k then max a.length (k.toNat + 1) else a.length, setEntries k v a.entries⟩

/-- Reading `a[k]`; `none` models `undefined` (hole, out of range, or plain
missing property). -/
def JsArray.get {α : Type} (a : JsArray α) (k : Int) : Option α :=
  a.entries.lookup k

/-- `blockMap.get(id)`. -/
def lookupBlock (blocks : List Block) (i : String) : Option Block :=
  blocks.find? (fun b => b.id == i)

/-- KEY-role classification of a `KEY_VALUE_SET` block
(`block.EntityTypes?.includes('KEY')`). -/
def isKeyBlock (b : Block) : Bool :=
  b.blockType == "KEY_VALUE_SET" && b.entityTypes.contains "KEY"

/-- A `KEY_VALUE_SET` block without the KEY role goes to `valueMap`. -/
def isValueBlock (b : Block) : Bool :=
  b.blockType == "KEY_VALUE_SET" && !b.entityTypes.contains "KEY"

/-- `keyMap` iteration order (insertion order = input order). -/
def keyBlocksOf (blocks : List Block) : List Block :=
  blocks.filter isKeyBlock

/-- `tableMap` iteration order. -/
def tableBlocksOf (blocks : List Block) : List Block :=
  blocks.filter (fun b => b.blockType == "TABLE")

/-- `valueMap.get(id)` / `valueMap.has(id)` (via `isSome`). -/
def lookupValue (blocks : List Block) (i : String) : Option Block :=
  (blocks.filter isValueBlock).find? (fun b => b.id == i)

/-- `cellMap.get(id)`. -/
def lookupCell (blocks : List Block) (i : String) : Option Block :=
  (blocks.filter (fun b => b.blockType == "CELL")).find? (fun b => b.id == i)

/-- JS string coercion used by `text += childBlock.Text + ' '` — an absent
`Text` is concatenated as the string `"undefined"`. -/
def jsStrCoe (o : Option String) : String :=
  match o with
  | some t => t
  | none => "undefined"

/-- `getText(block, blockMap)`: concatenate the texts of CHILD word blocks,
each followed by a space, then trim. -/
def getTextWith (b : Block) (lk : String → Option Block) : String :=
  let chars := b.relationships.foldl
    (fun acc rel =>
      if rel.relType == "CHILD" then
        rel.ids.foldl
          (fun acc2 cid =>
            match lk cid with
            | some childBlock =>
              if childBlock.blockType == "WORD" then
                acc2 ++ (jsStrCoe childBlock.text).data ++ [' ']
              else acc2
            | none => acc2)
          acc
      else acc)
    []
  ⟨trimWs chars⟩

/-- `findValueBlock(keyBlock, valueMap)`: scan all VALUE relationships and all
their ids, keeping the most recent id that resolves in `valueMap` — the LAST
resolvable id wins, since each hit overwrites `valueBlock`. -/
def findValueBlock (keyBlock : Block) (lkv : String → Option Block) : Option Block :=
  keyBlock.relationships.foldl
    (fun acc rel =>
      if rel.relType == "VALUE" then
        rel.ids.foldl
          (fun acc2 vid =>
            match lkv vid with
            | some vb => some vb
            | none => acc2)
          acc
      else acc)
    none

/-- The flattened id sequence of the VALUE-typed relationships, in iteration
order. -/
def valueEdgeIds (b : Block) : List String :=
  (b.relationships.filter (fun r => r.relType == "VALUE")).flatMap (fun r => r.ids)

/-- The key-value pair contributed by one key block (the body of the
`keyMap.forEach` loop): resolve the value block, then both display texts, and
emit the pair only when both are non-empty (truthy). -/
def kvPair (keyBlock : Block) (lkv lk : String → Option Block) :
    Option (String × String) :=
  match findValueBlock keyBlock lkv with
  | some valueBlock =>
    let keyText := getTextWith keyBlock lk
    let valueText := getTextWith valueBlock lk
    if keyText ≠ "" ∧ valueText ≠ "" then some (keyText, valueText) else none
  | none => none

/-- `kvPair` with the lookups taken from a block list. -/
def keyContribution (keyBlock : Block) (blocks : List Block) :
    Option (String × String) :=
  kvPair keyBlock (lookupValue blocks) (lookupBlock blocks)

/-- One recorded cell `{rowIndex, columnIndex, text, rowSpan, columnSpan}`
(after the `|| 0` / `|| 1` defaults). -/
structure CellRec where
  rowIndex : Int
  columnIndex : Int
  text : String
  rowSpan : Int
  columnSpan : Int
deriving DecidableEq

/-- `x || 0` on an optional JS number. -/
def orZero (o : Option Int) : Int :=
  match o with
  | some n => n
  | none => 0

/-- `x || 1` on an optional JS number (note: an explicit 0 is falsy). -/
def orOne (o : Option Int) : Int :=
  match o with
  | some n => if n = 0 then 1 else n
  | none => 1

/-- The `cells` list collected for one table: CHILD-linked ids resolved in
`cellMap`, with text resolved through `getText`. -/
def collectCells (tableBlock : Block) (lkc lk : String → Option Block) :
    List CellRec :=
  ((tableBlock.relationships.filter (fun r => r.relType == "CHILD")).flatMap
      (fun r => r.ids)).filterMap fun cellId =>
    (lkc cellId).map fun cell =>
      { rowIndex := orZero cell.rowIndex
        columnIndex := orZero cell.columnIndex
        text := getTextWith cell lk
        rowSpan := orOne cell.rowSpan
        columnSpan := orOne cell.columnSpan }

/-- The body of the `cells.forEach` placement loop:
`if (!rows[r-1]) rows[r-1] = []; rows[r-1][c-1] = cell.text`. -/
def placeCell (rows : JsArray (JsArray String)) (cell : CellRec) :
    JsArray (JsArray String) :=
  let r := cell.rowIndex - 1
  let row := match rows.get r with
    | some row => row
    | none => JsArray.empty
  rows.set r (row.set (cell.columnIndex - 1) cell.text)

/-- `rows.filter(row => row && row.length > 0)`: iterate indices `0 … length-1`
(skipping holes, as `filter` does) and keep the non-empty rows. -/
def survivingRows (rows : JsArray (JsArray String)) : List (JsArray String) :=
  (List.range rows.length).filterMap fun i =>
    match rows.get (Int.ofNat i) with
    | some row => if row.length > 0 then some row else none
    | none => none

structure DecodedTable where
  rows : List (JsArray String)
  rawCells : List CellRec
deriving DecidableEq

/-- `extractTable(tableBlock, cellMap, blockMap)`. -/
def extractTable (tableBlock : Block) (lkc lk : String → Option Block) :
    DecodedTable :=
  let cells := collectCells tableBlock lkc lk
  let rows := cells.foldl placeCell JsArray.empty
  { rows := survivingRows rows, rawCells := cells }

structure DocLayout where
  titles : List String
  headers : List String
  sections : List String
  lists : List String
deriving DecidableEq

structure ExtractedData where
  text : String
  /-- The sequence of `keyValues[keyText] = valueText` assignments, in
  emission order; the JS object's mapping is last-assignment-wins. -/
  keyValues : List (String × String)
  tables : List DecodedTable
  layout : DocLayout
  signatures : List (Option Rat × Option String)
deriving DecidableEq

/-- `block.Text || ''`. -/
def textOrEmpty (b : Block) : String :=
  (b.text).getD ""

/-- The pure decoding core of `extractText` (everything after the Textract
call): one pass over the blocks for text/layout/signatures, then key-value
resolution over `keyMap` and table reconstruction over `tableMap`. -/
def extractText (blocks : List Block) : ExtractedData :=
  { text := ⟨blocks.foldl
      (fun acc b =>
        if b.blockType == "LINE" && jsTruthyOpt b.text then
          acc ++ (b.text.getD "").data ++ ['\n']
        else acc)
      []⟩
    keyValues := (keyBlocksOf blocks).filterMap fun kb => keyContribution kb blocks
    tables := (tableBlocksOf blocks).filterMap fun tb =>
      let table := extractTable tb (lookupCell blocks) (lookupBlock blocks)
      if table.rows.length > 0 then some table else none
    layout :=
      { titles := blocks.filterMap fun b =>
          if b.blockType == "LAYOUT_TITLE" then some (textOrEmpty b) else none
        headers := blocks.filterMap fun b =>
          if b.blockType == "LAYOUT_HEADER" then some (textOrEmpty b) else none
        sections := blocks.filterMap fun b =>
          if b.blockType == "LAYOUT_SECTION_HEADER" then some (textOrEmpty b) else none
        lists := blocks.filterMap fun b =>
          if b.blockType == "LAYOUT_LIST" then some (textOrEmpty b) else none }
    signatures := blocks.filterMap fun b =>
      if b.blockType == "SIGNATURE" then some (b.confidence, b.geometry) else none }

/-! ## Claim-side definitions (written from the spec's words, for comparison
with the source-derived definitions above) and concrete instances used by the
counterexamples and witnesses -/

/-- The similarity the spec describes (claim C3):
`round(((max_len - distance) / max_len) * 100)` where BOTH the distance and
`max_len` are taken from the NORMALIZED strings, with `max_len = 0`
short-circuiting to 100. -/
def claimedSimilarity (s1 s2 : String) : Int :=
  let n1 := cleanCompanyName s1
  let n2 := cleanCompanyName s2
  let maxLen := max n1.length n2.length
  if maxLen = 0 then 100
  else jsRound (((maxLen : Rat) - (levenshteinDistance n1 n2 : Rat)) / (maxLen : Rat) * 100)

/-- Resolution of the last resolvable id of a list: find the last id that is
present in the value map and look it up.  `findValueBlock` is proved equal to
this applied to `valueEdgeIds`. -/
def lastValueMatch (ids : List String) (lkv : String → Option Block) : Option Block :=
  match ids.reverse.find? (fun i => (lkv i).isSome) with
  | some i => lkv i
  | none => none

/-- A master list whose single entry scores exactly 90 against the query
`"abcdefghij"` (distance 1, maximum length 10). -/
def mdScore90 : List MasterDataItem :=
  [ { code := "C1", name := "abcdefghix" } ]

/-- A key-marker region with two resolvable VALUE-edge targets (`v1` before
`v2` in edge order) whose resolved texts differ. -/
def exC2 : List Block :=
  [ { id := "K", blockType := "KEY_VALUE_SET", entityTypes := ["KEY"],
      relationships := [⟨"VALUE", ["v1", "v2"]⟩, ⟨"CHILD", ["kw"]⟩] },
    { id := "v1", blockType := "KEY_VALUE_SET", relationships := [⟨"CHILD", ["w1"]⟩] },
    { id := "v2", blockType := "KEY_VALUE_SET", relationships := [⟨"CHILD", ["w2"]⟩] },
    { id := "kw", blockType := "WORD", text := some "Invoice" },
    { id := "w1", blockType := "WORD", text := some "first" },
    { id := "w2", blockType := "WORD", text := some "second" } ]

/-- The key block of `exC2`. -/
def keyK : Block :=
  { id := "K", blockType := "KEY_VALUE_SET", entityTypes := ["KEY"],
    relationships := [⟨"VALUE", ["v1", "v2"]⟩, ⟨"CHILD", ["kw"]⟩] }

/-- The table block used by the table examples. -/
def tblBlock : Block :=
  { id := "t", blockType := "TABLE", relationships := [⟨"CHILD", ["c1"]⟩] }

/-- A table whose single cell has no `RowIndex` and no `ColumnIndex`. -/
def exC5 : List Block :=
  [ tblBlock,
    { id := "c1", blockType := "CELL", relationships := [⟨"CHILD", ["w"]⟩] },
    { id := "w", blockType := "WORD", text := some "x" } ]

/-- A table whose single cell sits at row 1, column 2, so that position 0 of
the surviving row is never written. -/
def exC6 : List Block :=
  [ tblBlock,
    { id := "c1", blockType := "CELL", rowIndex := some 1, columnIndex := some 2,
      relationships := [⟨"CHILD", ["w"]⟩] },
    { id := "w", blockType := "WORD", text := some "x" } ]

/-- Two layout-title regions with distinct texts and ids. -/
def titleA : Block := { id := "a", blockType := "LAYOUT_TITLE", text := some "A" }

def titleB : Block := { id := "b", blockType := "LAYOUT_TITLE", text := some "B" }

/-! ## Helper lemmas -/

theorem ciDrop_length {w cs rest : List Char} (h : ciDrop w cs = some rest) :
    w.length + rest.length = cs.length := by
  induction w generalizing cs with
  | nil => simp [ciDrop] at h; simp [h]
  | cons x ws ih =>
    match cs with
    | [] => simp [ciDrop] at h
    | c :: cs' =>
      simp only [ciDrop] at h
      split at h
      · have := ih h
        simp only [List.length_cons]
        omega
      · exact absurd h (by simp)

theorem trySuffix_length {cs rest : List Char} (h : trySuffix cs = some rest) :
    rest.length < cs.length := by
  obtain ⟨w, hw, hfw⟩ := List.exists_of_findSome?_eq_some h
  match hcd : ciDrop w cs with
  | none => rw [hcd] at hfw; exact absurd hfw (by simp)
  | some r =>
    have hlen := ciDrop_length hcd
    have hwne : w ≠ [] := by
      revert hw; rw [suffixWords]; intro hw; fin_cases hw <;> simp
    have hwpos : 0 < w.length := List.length_pos.mpr hwne
    have hrest : rest = r := by
      rw [hcd] at hfw
      match r with
      | [] => simpa using hfw.symm
      | c :: _ =>
        simp only at hfw
        split at hfw
        · exact absurd hfw (by simp)
        · simpa using hfw.symm
    subst hrest
    omega

theorem stripGo_length (fuel : Nat) :
    ∀ (prevW : Bool) (cs : List Char), (stripGo fuel prevW cs).length ≤ cs.length := by
  induction fuel with
  | zero => intro prevW cs; simp [stripGo]
  | succ fuel ih =>
    intro prevW cs
    match cs with
    | [] => simp [stripGo]
    | c :: rest =>
      rw [stripGo]
      split
      · next rem hm =>
        have hlt : rem.length < (c :: rest).length := by
          split at hm
          · exact absurd hm (by simp)
          · exact trySuffix_length hm
        have := ih true rem
        simp only [List.length_cons] at hlt ⊢
        omega
      · have := ih (isWordChar c) rest
        simpa using Nat.succ_le_succ this

theorem stripSuffixWords_length (prevW : Bool) (cs : List Char) :
    (stripSuffixWords prevW cs).length ≤ cs.length :=
  stripGo_length cs.length prevW cs

theorem collapseGo_length (cs : List Char) :
    ∀ (inRun : Bool), (collapseGo inRun cs).length ≤ cs.length := by
  induction cs with
  | nil => intro inRun; simp [collapseGo]
  | cons c rest ih =>
    intro inRun
    rw [collapseGo]
    split
    · split
      · have := ih true
        simp only [List.length_cons]
        omega
      · have := ih true
        simpa using Nat.succ_le_succ this
    · have := ih false
      simpa using Nat.succ_le_succ this

theorem collapseWs_length (cs : List Char) : (collapseWs cs).length ≤ cs.length :=
  collapseGo_length cs false

/-- JS `String.prototype.trim`: drop whitespace from both ends. -/

theorem trimWs_length (cs : List Char) : (trimWs cs).length ≤ cs.length := by
  unfold trimWs
  calc ((cs.dropWhile jsSpace).reverse.dropWhile jsSpace).reverse.length
      = ((cs.dropWhile jsSpace).reverse.dropWhile jsSpace).length := by
        simp
    _ ≤ (cs.dropWhile jsSpace).reverse.length :=
        (List.dropWhile_sublist jsSpace).length_le
    _ = (cs.dropWhile jsSpace).length := by simp
    _ ≤ cs.length := (List.dropWhile_sublist jsSpace).length_le

/-- `cleanCompanyName`: strip legal-entity suffix words, remove punctuation,
collapse whitespace, trim. -/

theorem cleanCompanyName_length (s : String) :
    (cleanCompanyName s).length ≤ s.length := by
  show (trimWs (collapseWs ((stripSuffixWords false s.data).filter
      (fun c => !isPunct c)))).length ≤ s.data.length
  calc (trimWs (collapseWs ((stripSuffixWords false s.data).filter
          (fun c => !isPunct c)))).length
      ≤ (collapseWs ((stripSuffixWords false s.data).filter
          (fun c => !isPunct c))).length := trimWs_length _
    _ ≤ ((stripSuffixWords false s.data).filter (fun c => !isPunct c)).length :=
        collapseWs_length _
    _ ≤ (stripSuffixWords false s.data).length := List.length_filter_le _ _
    _ ≤ s.data.length := stripSuffixWords_length _ _

theorem levAux_length (a : Char) :
    ∀ (bs : List Char) (diag left : Nat) (ups : List Nat), ups.length = bs.length →
      (levAux a bs diag left ups).length = bs.length := by
  intro bs
  induction bs with
  | nil => intro diag left ups h; simp [levAux]
  | cons b bs ih =>
    intro diag left ups h
    match ups with
    | [] => simp at h
    | up :: ups =>
      simp only [levAux, List.length_cons]
      rw [ih up _ ups (by simpa using h)]

theorem levRow_length (a : Char) (t : List Char) (prev : List Nat)
    (h : prev.length = t.length + 1) : (levRow a t prev).length = t.length + 1 := by
  match prev with
  | [] => simp at h
  | p0 :: ps =>
    simp only [levRow, List.length_cons]
    rw [levAux_length a t p0 (p0 + 1) ps (by simpa using h)]

/-- Elementwise bound `dp[i][j] ≤ max i j` propagated through the inner loop. -/

theorem levAux_bound (a : Char) :
    ∀ (bs : List Char) (diag left : Nat) (ups : List Nat) (i j : Nat),
      ups.length = bs.length →
      diag ≤ max i j → left ≤ max (i + 1) j →
      (∀ k (h : k < ups.length), ups.get ⟨k, h⟩ ≤ max i (j + 1 + k)) →
      ∀ k (h : k < (levAux a bs diag left ups).length),
        (levAux a bs diag left ups).get ⟨k, h⟩ ≤ max (i + 1) (j + 1 + k) := by
  intro bs
  induction bs with
  | nil => intro diag left ups i j hl hd hle hups k hk; simp [levAux] at hk
  | cons b bs ih =>
    intro diag left ups i j hl hd hle hups k hk
    match ups with
    | [] => simp at hl
    | up :: ups =>
      have hup : up ≤ max i (j + 1) := by
        have := hups 0 (by simp)
        simpa using this
      have hcur : (if a = b then diag else 1 + min up (min left diag)) ≤
          max (i + 1) (j + 1) := by
        split
        · calc diag ≤ max i j := hd
            _ ≤ max (i + 1) (j + 1) := by omega
        · have : min up (min left diag) ≤ diag := le_trans (min_le_right _ _) (min_le_right _ _)
          have : 1 + min up (min left diag) ≤ 1 + max i j := by omega
          calc 1 + min up (min left diag) ≤ 1 + max i j := this
            _ = max (i + 1) (j + 1) := by omega
      match k, hk with
      | 0, hk => simpa [levAux] using hcur
      | k + 1, hk =>
        simp only [levAux, List.length_cons] at hk
        have hrec := ih up (if a = b then diag else 1 + min up (min left diag)) ups i (j + 1)
          (by simpa using hl) hup hcur
          (by
            intro m hm
            have := hups (m + 1) (by simpa using Nat.succ_lt_succ hm)
            simp only [List.get_cons_succ] at this
            have heq : j + 1 + 1 + m = j + 1 + (m + 1) := by omega
            rw [heq]
            exact this)
        have := hrec k (by simpa [levAux] using hk)
        simp only [levAux, List.get_cons_succ]
        have heq : j + 1 + 1 + k = j + 1 + (k + 1) := by omega
        rw [heq] at this
        exact this

theorem levRow_bound (a : Char) (t : List Char) (prev : List Nat) (i : Nat)
    (hlen : prev.length = t.length + 1)
    (hb : ∀ k (h : k < prev.length), prev.get ⟨k, h⟩ ≤ max i k) :
    ∀ k (h : k < (levRow a t prev).length), (levRow a t prev).get ⟨k, h⟩ ≤ max (i + 1) k := by
  match prev with
  | [] => simp at hlen
  | p0 :: ps =>
    intro k hk
    have hp0 : p0 ≤ max i 0 := by simpa using hb 0 (by simp)
    have hp0' : p0 + 1 ≤ max (i + 1) 0 := by
      simp only [Nat.max_zero] at hp0 ⊢
      omega
    match k, hk with
    | 0, hk => simpa [levRow] using hp0'
    | k + 1, hk =>
      simp only [levRow, List.length_cons] at hk
      have hrec := levAux_bound a t p0 (p0 + 1) ps i 0
        (by simpa using hlen)
        (by simpa using hp0)
        (by simpa using hp0')
        (by
          intro m hm
          have := hb (m + 1) (by simpa using Nat.succ_lt_succ hm)
          simp only [List.get_cons_succ] at this
          have heq : (0 : Nat) + 1 + m = m + 1 := by omega
          rw [heq]
          exact this)
      have := hrec k (by simpa [levRow] using hk)
      simp only [levRow, List.get_cons_succ]
      have heq : 0 + 1 + k = k + 1 := by omega
      rw [heq] at this
      exact this

theorem levenshteinDistance_le (s t : String) :
    levenshteinDistance s t ≤ max s.length t.length := by
  have main : ∀ (l : List Char) (prev : List Nat) (i : Nat),
      prev.length = t.data.length + 1 →
      (∀ k (h : k < prev.length), prev.get ⟨k, h⟩ ≤ max i k) →
      (l.foldl (fun prev a => levRow a t.data prev) prev).length = t.data.length + 1 ∧
      ∀ k (h : k < (l.foldl (fun prev a => levRow a t.data prev) prev).length),
        (l.foldl (fun prev a => levRow a t.data prev) prev).get ⟨k, h⟩ ≤ max (i + l.length) k := by
    intro l
    induction l with
    | nil =>
      intro prev i hlen hb
      exact ⟨hlen, by simpa using hb⟩
    | cons a l ih =>
      intro prev i hlen hb
      have hrlen : (levRow a t.data prev).length = t.data.length + 1 := levRow_length _ _ _ hlen
      have hrb := levRow_bound a t.data prev i hlen hb
      have := ih (levRow a t.data prev) (i + 1) hrlen hrb
      constructor
      · simpa using this.1
      · intro k hk
        have h2 := this.2 k (by simpa using hk)
        have heq : i + 1 + l.length = i + (l.length + 1) := by omega
        rw [heq] at h2
        simpa using h2
  have hinit : ∀ k (h : k < (List.range (t.length + 1)).length),
      (List.range (t.length + 1)).get ⟨k, h⟩ ≤ max 0 k := by
    intro k h
    rw [List.get_eq_getElem, List.getElem_range]
    exact le_max_right 0 k
  have hlen0 : (List.range (t.length + 1)).length = t.data.length + 1 := by
    rw [List.length_range]
    rfl
  obtain ⟨hflen, hfb⟩ := main s.data (List.range (t.length + 1)) 0 hlen0 hinit
  unfold levenshteinDistance
  set final := s.data.foldl (fun prev a => levRow a t.data prev) (List.range (t.length + 1)) with hf
  have hne : final ≠ [] := by
    intro hnil
    rw [hnil] at hflen
    simp at hflen
  rw [List.getLast?_eq_getLast final hne]
  simp only [Option.getD_some]
  rw [List.getLast_eq_get]
  have := hfb (final.length - 1) (by omega)
  calc final.get ⟨final.length - 1, by omega⟩ ≤ max (0 + s.data.length) (final.length - 1) := this
    _ ≤ max s.length t.length := by
      have h1 : final.length - 1 = t.data.length := by omega
      rw [h1, Nat.zero_add]
      exact le_rfl

theorem fuzzyAlternatives_nil (v : String) : fuzzyAlternatives v [] = [] := rfl

theorem jsTruthyOpt_some_of_ne {v : String} (hv : v ≠ "") :
    jsTruthyOpt (some v) = true := by
  simp [jsTruthyOpt, hv]

/-- Once the early returns are ruled out and the exact check fails,
`validateField` is its fuzzy tail. -/
theorem validateField_fuzzy_eq (v fieldName : String)
    (provider : String → List MasterDataItem) (resp : Option GptResponse)
    (hv : v ≠ "")
    (hmd : (provider (dataTypeFor fieldName)).length ≠ 0)
    (hex : (provider (dataTypeFor fieldName)).find? (exactMatchPred v) = none) :
    validateField (some v) fieldName provider resp =
      validateFieldFuzzy fieldName v
        (fuzzyAlternatives v (provider (dataTypeFor fieldName))) resp := by
  unfold validateField
  rw [jsTruthyOpt_some_of_ne hv]
  simp only [Bool.true_eq_false, if_false, Option.getD_some]
  rw [if_neg hmd, hex]

/-- The whole string is empty when the longer of the two is. -/
theorem max_length_ne_zero {s1 s2 : String}
    (h : cleanCompanyName s1 ≠ cleanCompanyName s2) :
    max s1.length s2.length ≠ 0 := by
  intro h0
  have h1 : s1.length = 0 := by omega
  have h2 : s2.length = 0 := by omega
  have e1 : s1 = "" := by
    cases s1 with
    | mk data =>
      simp only [String.length] at h1
      have : data = [] := List.length_eq_zero.mp h1
      simp [this]
  have e2 : s2 = "" := by
    cases s2 with
    | mk data =>
      simp only [String.length] at h2
      have : data = [] := List.length_eq_zero.mp h2
      simp [this]
  rw [e1, e2] at h
  exact h rfl

theorem levenshteinDistance_clean_le (s1 s2 : String) :
    levenshteinDistance (cleanCompanyName s1) (cleanCompanyName s2) ≤
      max s1.length s2.length :=
  le_trans (levenshteinDistance_le _ _)
    (max_le_max (cleanCompanyName_length s1) (cleanCompanyName_length s2))

theorem simRatio_nonneg {s1 s2 : String}
    (h : cleanCompanyName s1 ≠ cleanCompanyName s2) : 0 ≤ simRatio s1 s2 := by
  unfold simRatio
  have hmax := max_length_ne_zero h
  have hd := levenshteinDistance_clean_le s1 s2
  have hM : (0 : Rat) < (max s1.length s2.length : Nat) := by
    exact_mod_cast Nat.pos_of_ne_zero hmax
  have hnum : (0 : Rat) ≤ ((max s1.length s2.length : Nat) : Rat) -
      (levenshteinDistance (cleanCompanyName s1) (cleanCompanyName s2) : Rat) := by
    rw [sub_nonneg]
    exact_mod_cast hd
  positivity

theorem simRatio_le_100 {s1 s2 : String}
    (h : cleanCompanyName s1 ≠ cleanCompanyName s2) : simRatio s1 s2 ≤ 100 := by
  unfold simRatio
  have hmax := max_length_ne_zero h
  have hM : (0 : Rat) < (max s1.length s2.length : Nat) := by
    exact_mod_cast Nat.pos_of_ne_zero hmax
  have hfrac : ((max s1.length s2.length : Nat) : Rat) -
      (levenshteinDistance (cleanCompanyName s1) (cleanCompanyName s2) : Rat) ≤
      ((max s1.length s2.length : Nat) : Rat) := by
    have : (0 : Rat) ≤ (levenshteinDistance (cleanCompanyName s1) (cleanCompanyName s2) : Rat) := by
      positivity
    linarith
  calc (((max s1.length s2.length : Nat) : Rat) -
        (levenshteinDistance (cleanCompanyName s1) (cleanCompanyName s2) : Rat))
        / ((max s1.length s2.length : Nat) : Rat) * 100
      ≤ 1 * 100 := by
        apply mul_le_mul_of_nonneg_right _ (by norm_num)
        rw [div_le_one hM]
        exact hfrac
    _ = 100 := by norm_num

unseal Rat.mul Rat.inv Rat.add Rat.sub in
/-- **C3** — counterexample.  The claim computes
`round(((max_len − distance) / max_len) · 100)` with `max_len` taken from the
NORMALIZED strings and asserts an integer result; the code divides by the
maximum ORIGINAL length and never rounds.  On `("acme inc", "acmex")` the
normalized strings are `"acme"`/`"acmex"` (distance 1): the claim's formula
gives `round((5−1)/5·100) = 80`, but the code returns `(8−1)/8·100 = 87.5`,
which is not even an integer. -/
theorem C3_counterexample :
    calculateSimilarity "acme inc" "acmex" = 175 / 2 ∧
    (calculateSimilarity "acme inc" "acmex").den ≠ 1 ∧
    claimedSimilarity "acme inc" "acmex" = 80 ∧
    calculateSimilarity "acme inc" "acmex" ≠
      ((claimedSimilarity "acme inc" "acmex" : Int) : Rat) := by
  decide

/-- **C3** — amended: for inputs with distinct normalized forms the similarity
is a RATIONAL in [0, 100] (not an integer; rounding happens later, in the
caller that builds the alternatives); absent a raw-containment boost it equals
`((max_len − distance) / max_len) · 100`, where the distance is the unit-cost
Levenshtein distance between the NORMALIZED strings but `max_len` is the
maximum length of the ORIGINAL input strings (stated multiplied out by
`max_len`, which also covers the unreachable `max_len = 0` short-circuit). -/
theorem C3_ratio_amended (s1 s2 : String)
    (h : cleanCompanyName s1 ≠ cleanCompanyName s2) :
    0 ≤ calculateSimilarity s1 s2 ∧ calculateSimilarity s1 s2 ≤ 100 ∧
    (jsIncludes s1 s2 = false → jsIncludes s2 s1 = false →
      calculateSimilarity s1 s2 * ((max s1.length s2.length : Nat) : Rat) =
        (((max s1.length s2.length : Nat) : Rat) -
          (levenshteinDistance (cleanCompanyName s1) (cleanCompanyName s2) : Rat)) * 100) := by
  have hmax := max_length_ne_zero h
  have hM : (0 : Rat) < (max s1.length s2.length : Nat) := by
    exact_mod_cast Nat.pos_of_ne_zero hmax
  have hcalc : calculateSimilarity s1 s2 =
      if jsIncludes s1 s2 || jsIncludes s2 s1 then min (simRatio s1 s2 + 15) 95
      else simRatio s1 s2 := by
    unfold calculateSimilarity
    rw [if_neg h, if_neg hmax]
  refine ⟨?_, ?_, ?_⟩
  · rw [hcalc]
    split
    · exact le_min (by linarith [simRatio_nonneg h]) (by norm_num)
    · exact simRatio_nonneg h
  · rw [hcalc]
    split
    · calc min (simRatio s1 s2 + 15) 95 ≤ 95 := min_le_right _ _
        _ ≤ 100 := by norm_num
    · exact simRatio_le_100 h
  · intro h1 h2
    rw [hcalc, h1, h2]
    simp only [Bool.or_self, if_false]
    unfold simRatio
    have hMne : ((max s1.length s2.length : Nat) : Rat) ≠ 0 := ne_of_gt hM
    rw [div_mul_eq_mul_div]
    exact div_mul_cancel₀ _ hMne

/-- **C3** — witness: the amended theorem applied at `("acme inc", "acmex")`. -/
theorem C3_witness :
    cleanCompanyName "acme inc" ≠ cleanCompanyName "acmex" ∧
    (0 ≤ calculateSimilarity "acme inc" "acmex" ∧
      calculateSimilarity "acme inc" "acmex" ≤ 100 ∧
      (jsIncludes "acme inc" "acmex" = false → jsIncludes "acmex" "acme inc" = false →
        calculateSimilarity "acme inc" "acmex" *
            ((max "acme inc".length "acmex".length : Nat) : Rat) =
          (((max "acme inc".length "acmex".length : Nat) : Rat) -
            (levenshteinDistance (cleanCompanyName "acme inc")
              (cleanCompanyName "acmex") : Rat)) * 100)) :=
  ⟨by decide, C3_ratio_amended "acme inc" "acmex" (by decide)⟩

unseal Rat.mul Rat.inv Rat.add Rat.sub in
/-- **C4** — counterexample.  The claim applies the +15 boost when one
NORMALIZED string contains the other; the code tests containment on the RAW
inputs.  On `("acme.", "acme x")` the normalized strings are
`"acme"` ⊂ `"acme x"`, yet neither raw string contains the other, so the code
returns the plain ratio `200/3` instead of the boosted
`min(200/3 + 15, 95)`. -/
theorem C4_counterexample :
    jsIncludes (cleanCompanyName "acme x") (cleanCompanyName "acme.") = true ∧
    jsIncludes "acme." "acme x" = false ∧
    jsIncludes "acme x" "acme." = false ∧
    calculateSimilarity "acme." "acme x" = 200 / 3 ∧
    calculateSimilarity "acme." "acme x" ≠ min (simRatio "acme." "acme x" + 15) 95 := by
  decide

/-- **C4** — amended: the containment test is on the RAW input strings: when
one input contains the other (and the normalized forms differ), the similarity
is `min(ratio + 15, 95)`, so the boost never produces a score above the 95
reserved for an exact normalized match. -/
theorem C4_boost_amended (s1 s2 : String)
    (h : cleanCompanyName s1 ≠ cleanCompanyName s2)
    (hin : (jsIncludes s1 s2 || jsIncludes s2 s1) = true) :
    calculateSimilarity s1 s2 = min (simRatio s1 s2 + 15) 95 ∧
    calculateSimilarity s1 s2 ≤ 95 := by
  have hmax := max_length_ne_zero h
  have heq : calculateSimilarity s1 s2 = min (simRatio s1 s2 + 15) 95 := by
    unfold calculateSimilarity
    rw [if_neg h, if_neg hmax, hin]
    simp
  exact ⟨heq, by rw [heq]; exact min_le_right _ _⟩

unseal Rat.mul Rat.inv Rat.add Rat.sub in
/-- **C4** — witness: the amended theorem applied at
`("jacks foods", "jacks foods xx")` (raw containment holds, normalized forms
differ; the boosted score is `655/7 ≈ 93.6 ≤ 95`). -/
theorem C4_witness :
    cleanCompanyName "jacks foods" ≠ cleanCompanyName "jacks foods xx" ∧
    (jsIncludes "jacks foods" "jacks foods xx" ||
      jsIncludes "jacks foods xx" "jacks foods") = true ∧
    (calculateSimilarity "jacks foods" "jacks foods xx" =
        min (simRatio "jacks foods" "jacks foods xx" + 15) 95 ∧
      calculateSimilarity "jacks foods" "jacks foods xx" ≤ 95) :=
  ⟨by decide, by decide,
    C4_boost_amended "jacks foods" "jacks foods xx" (by decide) (by decide)⟩

set_option maxRecDepth 100000 in
unseal Rat.mul Rat.inv Rat.add Rat.sub in
/-- **C1** — counterexample.  The claim says a winner with (rounded) score 90
gets status `fuzzy_high`; the code's test is `score > 90`, so a score of
exactly 90 auto-accepts with status `fuzzy_medium`.  Query `"abcdefghij"`
against the single master item `"abcdefghix"` scores exactly 90 (no exact
match, candidate list non-empty). -/
theorem C1_counterexample :
    mdScore90.find? (exactMatchPred "abcdefghij") = none ∧
    fuzzyAlternatives "abcdefghij" mdScore90 = [⟨"C1", "abcdefghix", 90⟩] ∧
    (validateField (some "abcdefghij") "gl_account" (fun _ => mdScore90) none).status =
      VStatus.fuzzy_medium ∧
    (validateField (some "abcdefghij") "gl_account" (fun _ => mdScore90) none).confidence = 90 ∧
    VStatus.fuzzy_medium ≠ VStatus.fuzzy_high := by
  decide

/-- **C1** — amended: when no exact match exists and the candidate list is
non-empty, the auto-accept test is strictly greater than 85 and the
`fuzzy_high` test is strictly greater than 90: a winner with score 91 gets
`fuzzy_high`, winners with scores 90 or 89 get `fuzzy_medium` (conjunct 1,
with the threshold stated as `90 < score`), and a top score of exactly 85 is
NOT auto-accepted — it takes the oracle-escalation path, never producing
`exact`/`fuzzy_high` (conjunct 2) and falling through to `no_match` with
confidence 85 when the oracle declines (conjunct 3). -/
theorem C1_tier_amended (v fieldName : String)
    (provider : String → List MasterDataItem) (resp : Option GptResponse)
    (a0 : Alt) (rest : List Alt)
    (hv : v ≠ "")
    (hex : (provider (dataTypeFor fieldName)).find? (exactMatchPred v) = none)
    (ha : fuzzyAlternatives v (provider (dataTypeFor fieldName)) = a0 :: rest) :
    (85 < a0.score →
      (validateField (some v) fieldName provider resp).status =
        (if 90 < a0.score then VStatus.fuzzy_high else VStatus.fuzzy_medium) ∧
      (validateField (some v) fieldName provider resp).confidence = (a0.score : Rat) ∧
      (validateField (some v) fieldName provider resp).matched_code = some a0.code) ∧
    (a0.score = 85 →
      (validateField (some v) fieldName provider resp).status ≠ VStatus.exact ∧
      (validateField (some v) fieldName provider resp).status ≠ VStatus.fuzzy_high) ∧
    (a0.score = 85 → resp = none →
      (validateField (some v) fieldName provider resp).status = VStatus.no_match ∧
      (validateField (some v) fieldName provider resp).confidence = 85) := by
  have hmd : (provider (dataTypeFor fieldName)).length ≠ 0 := by
    intro h0
    rw [List.length_eq_zero.mp h0, fuzzyAlternatives_nil] at ha
    exact List.cons_ne_nil a0 rest ha.symm
  have hred : validateField (some v) fieldName provider resp =
      validateFieldFuzzy fieldName v (a0 :: rest) resp := by
    rw [validateField_fuzzy_eq v fieldName provider resp hv hmd hex, ha]
  have hfz : validateFieldFuzzy fieldName v (a0 :: rest) resp =
      if 85 < a0.score then
        { field := fieldName, extracted_value := v, matched_code := some a0.code,
          matched_name := some a0.name, confidence := (a0.score : Rat),
          status := if 90 < a0.score then .fuzzy_high else .fuzzy_medium,
          alternatives := rest.take 5 }
      else if 60 < a0.score then
        match selectBestMatchWithGPT resp ((a0 :: rest).take 10) with
        | some sel =>
          { field := fieldName, extracted_value := v, matched_code := some sel.code,
            matched_name := some sel.name, confidence := sel.confidence,
            status := if 75 < sel.confidence then .fuzzy_medium else .fuzzy_low,
            alternatives := ((a0 :: rest).filter fun a => a.code ≠ sel.code).take 5 }
        | none => noMatchResult fieldName v (a0 :: rest)
      else noMatchResult fieldName v (a0 :: rest) := rfl
  refine ⟨?_, ?_, ?_⟩
  · intro h85
    rw [hred, hfz, if_pos h85]
    exact ⟨rfl, rfl, rfl⟩
  · intro h85
    rw [hred, hfz, if_neg (by omega : ¬ 85 < a0.score), if_pos (by omega : 60 < a0.score)]
    cases hsel : selectBestMatchWithGPT resp ((a0 :: rest).take 10) with
    | some sel =>
      by_cases h75 : (75 : Rat) < sel.confidence
      · simp [h75]
      · simp [h75]
    | none => simp [noMatchResult]
  · intro h85 hresp
    subst hresp
    rw [hred, hfz, if_neg (by omega : ¬ 85 < a0.score), if_pos (by omega : 60 < a0.score)]
    have hnone : selectBestMatchWithGPT none ((a0 :: rest).take 10) = none := rfl
    rw [hnone]
    constructor
    · simp [noMatchResult]
    · simp [noMatchResult, h85]

set_option maxRecDepth 100000 in
unseal Rat.mul Rat.inv Rat.add Rat.sub in
/-- **C1** — witness: the amended theorem applied to the score-90 scenario of
the counterexample (conjunct 1 fires; its `if` resolves to `fuzzy_medium`). -/
theorem C1_witness :
    85 < (Alt.mk "C1" "abcdefghix" 90).score ∧
    (validateField (some "abcdefghij") "gl_account" (fun _ => mdScore90) none).status =
      (if 90 < (Alt.mk "C1" "abcdefghix" 90).score then VStatus.fuzzy_high
        else VStatus.fuzzy_medium) := by
  have h := C1_tier_amended "abcdefghij" "gl_account" (fun _ => mdScore90) none
    ⟨"C1", "abcdefghix", 90⟩ [] (by decide) (by decide) (by decide)
  exact ⟨by decide, (h.1 (by decide)).1⟩

/-- **C9** — confirmed: a truthy extracted value whose resolved category has an
empty master-data list yields an immediate `no_match` with confidence 0, null
matched code and name, and no alternatives, whatever the value was. -/
theorem C9_empty_master_data (v fieldName : String)
    (provider : String → List MasterDataItem) (resp : Option GptResponse)
    (hv : v ≠ "") (hmd : provider (dataTypeFor fieldName) = []) :
    validateField (some v) fieldName provider resp =
      { field := fieldName, extracted_value := v, matched_code := none,
        matched_name := none, confidence := 0, status := .no_match,
        alternatives := [] } := by
  unfold validateField
  rw [jsTruthyOpt_some_of_ne hv]
  simp only [Bool.true_eq_false, if_false, Option.getD_some]
  rw [hmd]
  simp

/-- **C9** — witness: an unconfigured field name (its own category) with an
empty provider list. -/
theorem C9_witness :
    ("x" : String) ≠ "" ∧
    (fun _ => ([] : List MasterDataItem)) (dataTypeFor "tax_jurisdiction") = [] ∧
    validateField (some "x") "tax_jurisdiction" (fun _ => []) none =
      { field := "tax_jurisdiction", extracted_value := "x", matched_code := none,
        matched_name := none, confidence := 0, status := .no_match,
        alternatives := [] } :=
  ⟨by decide, rfl,
    C9_empty_master_data "x" "tax_jurisdiction" (fun _ => []) none (by decide) rfl⟩

/-- **C10** — confirmed: `validateDocumentFields` produces an entry exactly for
the configured `LIST_MATCH_FIELDS` names (13 of them, pairwise distinct) whose
extracted value is present and truthy, in configuration order; unconfigured
names and configured names with falsy values get no entry at all. -/
theorem C10_validated_keys (fields : String → Option String)
    (provider : String → List MasterDataItem) (resp : Option GptResponse) :
    (validateDocumentFields fields provider resp).map Prod.fst =
      listMatchFieldNames.filter (fun f => jsTruthyOpt (fields f)) ∧
    listMatchFieldNames.length = 13 ∧ listMatchFieldNames.Nodup := by
  refine ⟨?_, by decide, by decide⟩
  unfold validateDocumentFields
  have key : ∀ (l : List String),
      (l.filterMap fun fieldName =>
        if jsTruthyOpt (fields fieldName) then
          some (fieldName, validateField (fields fieldName) fieldName provider resp)
        else none).map Prod.fst = l.filter (fun f => jsTruthyOpt (fields f)) := by
    intro l
    induction l with
    | nil => rfl
    | cons x xs ih =>
      by_cases h : jsTruthyOpt (fields x) = true
      · simp [List.filterMap_cons, List.filter_cons, h, ih]
      · simp [List.filterMap_cons, List.filter_cons, h, ih]
  exact key listMatchFieldNames

/-! ### C2 — last VALUE edge wins -/

/-- Pushing the nested relationship/id iteration of `findValueBlock` into a
single fold over the flattened VALUE-edge id sequence. -/
theorem findValueBlock_flatten (lkv : String → Option Block) :
    ∀ (rels : List Relationship) (acc : Option Block),
      rels.foldl
        (fun acc rel =>
          if rel.relType == "VALUE" then
            rel.ids.foldl
              (fun acc2 vid =>
                match lkv vid with
                | some vb => some vb
                | none => acc2)
              acc
          else acc)
        acc =
      ((rels.filter (fun r => r.relType == "VALUE")).flatMap (fun r => r.ids)).foldl
        (fun acc2 vid =>
          match lkv vid with
          | some vb => some vb
          | none => acc2)
        acc := by
  intro rels
  induction rels with
  | nil => intro acc; rfl
  | cons r rs ih =>
    intro acc
    simp only [List.foldl_cons, List.filter_cons]
    by_cases hr : (r.relType == "VALUE") = true
    · rw [if_pos hr, if_pos hr, List.flatMap_cons, List.foldl_append, ih]
    · rw [if_neg hr, if_neg hr, ih]

/-- A fold that keeps the most recent resolvable id resolves the LAST
resolvable id of the sequence (found as the first hit in the reversed
sequence). -/
theorem foldl_keepLast_eq_lastMatch (lkv : String → Option Block) :
    ∀ (ids : List String) (acc : Option Block),
      ids.foldl
        (fun acc2 vid =>
          match lkv vid with
          | some vb => some vb
          | none => acc2)
        acc =
      match ids.reverse.find? (fun i => (lkv i).isSome) with
      | some i => lkv i
      | none => acc := by
  intro ids
  induction ids with
  | nil => intro acc; rfl
  | cons x xs ih =>
    intro acc
    rw [List.foldl_cons, ih, List.reverse_cons, List.find?_append]
    cases hfind : xs.reverse.find? (fun i => (lkv i).isSome) with
    | some j => simp [hfind]
    | none =>
      simp only [hfind, Option.none_or]
      cases hx : lkv x with
      | some vb => simp [List.find?, hx]
      | none => simp [List.find?, hx]

/-- **C2** — amended: for every key-marker region, `findValueBlock` pairs the
key with the LAST value-marker that resolves among its VALUE-typed edge ids,
in edge iteration order (each hit overwrites the previous one; no scoring).
In particular, with more than one resolvable VALUE target, the last — not the
first — wins. -/
theorem C2_last_value_wins (kb : Block) (lkv : String → Option Block) :
    findValueBlock kb lkv = lastValueMatch (valueEdgeIds kb) lkv := by
  unfold findValueBlock lastValueMatch valueEdgeIds
  rw [findValueBlock_flatten lkv kb.relationships none,
    foldl_keepLast_eq_lastMatch lkv]

/-- **C2** — counterexample.  In `exC2` the key's single VALUE relationship
lists `v1` (text `"first"`) before `v2` (text `"second"`); both resolve, yet
the emitted pair carries `"second"`, not the first-found `"first"` the claim
requires. -/
theorem C2_counterexample :
    (lookupValue exC2 "v1").isSome = true ∧
    (lookupValue exC2 "v2").isSome = true ∧
    ((lookupValue exC2 "v1").map fun vb => getTextWith vb (lookupBlock exC2)) =
      some "first" ∧
    (extractText exC2).keyValues = [("Invoice", "second")] ∧
    ("second" : String) ≠ "first" := by
  decide

/-! ### C5/C6 — table reconstruction -/

theorem lookup_setEntries {α : Type} (k k' : Int) (v : α) :
    ∀ (l : List (Int × α)), (setEntries k v l).lookup k' =
      if k' = k then some v else l.lookup k' := by
  intro l
  induction l with
  | nil =>
    simp only [setEntries, List.lookup]
    by_cases h : k' = k
    · have hb : (k' == k) = true := beq_iff_eq.mpr h
      rw [hb, if_pos h]
    · have hb : (k' == k) = false := beq_eq_false_iff_ne.mpr h
      rw [hb, if_neg h]
  | cons p ps ih =>
    obtain ⟨k1, v1⟩ := p
    simp only [setEntries]
    by_cases h1 : k1 = k
    · rw [if_pos h1]
      subst h1
      simp only [List.lookup]
      by_cases h : k' = k1
      · have hb : (k' == k1) = true := beq_iff_eq.mpr h
        rw [hb, if_pos h]
      · have hb : (k' == k1) = false := beq_eq_false_iff_ne.mpr h
        rw [hb, if_neg h]
    · rw [if_neg h1]
      simp only [List.lookup]
      by_cases h2 : k' = k1
      · have hb : (k' == k1) = true := beq_iff_eq.mpr h2
        have h : ¬ k' = k := fun hc => h1 ((h2.symm.trans hc))
        rw [hb, if_neg h]
      · have hb : (k' == k1) = false := beq_eq_false_iff_ne.mpr h2
        rw [hb, ih]

theorem JsArray.get_set {α : Type} (a : JsArray α) (k k' : Int) (v : α) :
    (a.set k v).get k' = if k' = k then some v else a.get k' := by
  unfold JsArray.set JsArray.get
  exact lookup_setEntries k k' v a.entries

theorem JsArray.get_empty {α : Type} (k : Int) : (JsArray.empty : JsArray α).get k = none := rfl

/-- Placing only cells with a zeroed row index (`RowIndex || 0` after a missing
index) never grows the rows array: everything lands on the `-1` property. -/
theorem placeCell_rowZero_length :
    ∀ (cells : List CellRec) (rs : JsArray (JsArray String)),
      (∀ c ∈ cells, c.rowIndex = 0) →
      (cells.foldl placeCell rs).length = rs.length := by
  intro cells
  induction cells with
  | nil => intro rs _; rfl
  | cons c cs ih =>
    intro rs hall
    rw [List.foldl_cons]
    rw [ih (placeCell rs c) (fun c' hc' => hall c' (List.mem_cons_of_mem c hc'))]
    have hc : c.rowIndex = 0 := hall c (List.mem_cons_self c cs)
    unfold placeCell JsArray.set
    rw [hc]
    norm_num

/-- Placing only cells with a zeroed column index leaves every stored row of
length 0 (the text lands on the inner `-1` property). -/
theorem placeCell_colZero_rows :
    ∀ (cells : List CellRec) (rs : JsArray (JsArray String)),
      (∀ c ∈ cells, c.columnIndex = 0) →
      (∀ (r : Int) (row : JsArray String), rs.get r = some row → row.length = 0) →
      ∀ (r : Int) (row : JsArray String),
        (cells.foldl placeCell rs).get r = some row → row.length = 0 := by
  intro cells
  induction cells with
  | nil => intro rs _ hrs; exact hrs
  | cons c cs ih =>
    intro rs hall hrs
    rw [List.foldl_cons]
    apply ih (placeCell rs c) (fun c' hc' => hall c' (List.mem_cons_of_mem c hc'))
    intro r row hget
    have hc : c.columnIndex = 0 := hall c (List.mem_cons_self c cs)
    unfold placeCell at hget
    rw [JsArray.get_set] at hget
    split at hget
    · cases hget
      have hrow0 : (match rs.get (c.rowIndex - 1) with
          | some row => row
          | none => JsArray.empty : JsArray String).length = 0 := by
        cases hold : rs.get (c.rowIndex - 1) with
        | some row1 => simpa [hold] using hrs _ row1 hold
        | none => simp [hold, JsArray.empty]
      unfold JsArray.set
      rw [hc]
      norm_num
      exact hrow0
    · exact hrs r row hget

theorem survivingRows_of_length_zero {rs : JsArray (JsArray String)}
    (h : rs.length = 0) : survivingRows rs = [] := by
  unfold survivingRows
  rw [h]
  rfl

theorem survivingRows_of_all_empty {rs : JsArray (JsArray String)}
    (h : ∀ (r : Int) (row : JsArray String), rs.get r = some row → row.length = 0) :
    survivingRows rs = [] := by
  unfold survivingRows
  rw [List.filterMap_eq_nil]
  intro i _
  cases hget : rs.get (Int.ofNat i) with
  | some row =>
    have := h _ row hget
    simp [this]
  | none => simp

/-- **C5** — amended: a missing row or column index is defaulted to 0 (not 1)
by `RowIndex || 0` / `ColumnIndex || 0`, so after the 1-based→0-based
conversion the cell targets JS index −1, a plain property that no reconstructed
row ever contains: a table all of whose cells lack a row index — or all of
whose cells lack a column index — reconstructs with NO rows at all (the cell
survives only in `rawCells`, with index 0 recorded). -/
theorem C5_missing_index_amended (tb : Block) (lkc lk : String → Option Block) :
    ((∀ c ∈ collectCells tb lkc lk, c.rowIndex = 0) →
      (extractTable tb lkc lk).rows = []) ∧
    ((∀ c ∈ collectCells tb lkc lk, c.columnIndex = 0) →
      (extractTable tb lkc lk).rows = []) := by
  constructor
  · intro hall
    show survivingRows ((collectCells tb lkc lk).foldl placeCell JsArray.empty) = []
    apply survivingRows_of_length_zero
    rw [placeCell_rowZero_length _ _ hall]
    rfl
  · intro hall
    show survivingRows ((collectCells tb lkc lk).foldl placeCell JsArray.empty) = []
    apply survivingRows_of_all_empty
    apply placeCell_colZero_rows _ _ hall
    intro r row hget
    rw [JsArray.get_empty] at hget
    cases hget

/-- **C5** — counterexample.  The cell of `exC5` has no row/column index; the
claim predicts its text `"x"` at row 0, column 0 of the reconstructed table,
but the decoder records the defaults as 0 (not 1), writes to index −1, and the
table is dropped entirely: no table is emitted at all. -/
theorem C5_counterexample :
    collectCells tblBlock (lookupCell exC5) (lookupBlock exC5) =
      [{ rowIndex := 0, columnIndex := 0, text := "x", rowSpan := 1, columnSpan := 1 }] ∧
    (extractTable tblBlock (lookupCell exC5) (lookupBlock exC5)).rows = [] ∧
    (extractText exC5).tables = [] := by
  decide

/-- **C5** — witness: the amended theorem applied to `exC5`. -/
theorem C5_witness :
    (∀ c ∈ collectCells tblBlock (lookupCell exC5) (lookupBlock exC5), c.rowIndex = 0) ∧
    (extractTable tblBlock (lookupCell exC5) (lookupBlock exC5)).rows = [] :=
  ⟨by decide,
    (C5_missing_index_amended tblBlock (lookupCell exC5) (lookupBlock exC5)).1 (by decide)⟩

/-- Soundness of the placement fold: every value present in any stored row was
written there by some cell of the list, at that cell's 0-based column. -/
theorem placeCell_sound (full : List CellRec) :
    ∀ (todo : List CellRec), (∀ c ∈ todo, c ∈ full) →
      ∀ (rs : JsArray (JsArray String)),
        (∀ (r : Int) (row : JsArray String), rs.get r = some row →
          ∀ (k : Int) (s : String), row.get k = some s →
            ∃ c ∈ full, c.columnIndex - 1 = k ∧ c.text = s) →
        ∀ (r : Int) (row : JsArray String), (todo.foldl placeCell rs).get r = some row →
          ∀ (k : Int) (s : String), row.get k = some s →
            ∃ c ∈ full, c.columnIndex - 1 = k ∧ c.text = s := by
  intro todo
  induction todo with
  | nil => intro _ rs hrs; exact hrs
  | cons c cs ih =>
    intro hmem rs hrs
    rw [List.foldl_cons]
    apply ih (fun c' hc' => hmem c' (List.mem_cons_of_mem c hc'))
    intro r row hget k s hks
    have hcf : c ∈ full := hmem c (List.mem_cons_self c cs)
    unfold placeCell at hget
    rw [JsArray.get_set] at hget
    split at hget
    · cases hget
      rw [JsArray.get_set] at hks
      split at hks
      · next hk =>
        cases hks
        exact ⟨c, hcf, hk.symm, rfl⟩
      · cases hold : rs.get (c.rowIndex - 1) with
        | some row1 =>
          rw [hold] at hks
          exact hrs _ row1 hold k s hks
        | none =>
          rw [hold, JsArray.get_empty] at hks
          cases hks
    · exact hrs r row hget k s hks

/-- **C6** — amended: a surviving row is a SPARSE sequence: positions never
written by a cell placement hold no value at all (reading them yields
`undefined`, never the empty string); dually, every value a row does hold was
written by one of the table's cells at that cell's 0-based column index. -/
theorem C6_sparse_rows_amended (tb : Block) (lkc lk : String → Option Block)
    (row : JsArray String) (hrow : row ∈ (extractTable tb lkc lk).rows)
    (k : Int) (s : String) (hks : row.get k = some s) :
    ∃ c ∈ (extractTable tb lkc lk).rawCells, c.columnIndex - 1 = k ∧ c.text = s := by
  have hmem : ∃ i, i ∈ List.range
      ((collectCells tb lkc lk).foldl placeCell JsArray.empty).length ∧
      (match ((collectCells tb lkc lk).foldl placeCell JsArray.empty).get (Int.ofNat i) with
        | some row' => if row'.length > 0 then some row' else none
        | none => none) = some row := by
    have : row ∈ survivingRows ((collectCells tb lkc lk).foldl placeCell JsArray.empty) := hrow
    unfold survivingRows at this
    rw [List.mem_filterMap] at this
    obtain ⟨i, hi, hfi⟩ := this
    exact ⟨i, hi, hfi⟩
  obtain ⟨i, _, hfi⟩ := hmem
  have hget : ((collectCells tb lkc lk).foldl placeCell JsArray.empty).get (Int.ofNat i) =
      some row := by
    cases hg : ((collectCells tb lkc lk).foldl placeCell JsArray.empty).get (Int.ofNat i) with
    | some row' =>
      rw [hg] at hfi
      have hfi' : (if row'.length > 0 then some row' else none) = some row := hfi
      split at hfi'
      · cases hfi'
        rfl
      · cases hfi'
    | none =>
      rw [hg] at hfi
      have hfi' : (none : Option (JsArray String)) = some row := hfi
      cases hfi'
  exact placeCell_sound (collectCells tb lkc lk) (collectCells tb lkc lk)
    (fun c hc => hc) JsArray.empty
    (fun r row' hr => by rw [JsArray.get_empty] at hr; cases hr)
    (Int.ofNat i) row hget k s hks

/-- **C6** — counterexample.  In `exC6` the single cell is at row 1, column 2;
the surviving row has length 2 but holds NOTHING (not the empty string) at the
never-written position 0, refuting "positions never written hold the empty
string, so each row is a total sequence of strings". -/
theorem C6_counterexample :
    (extractText exC6).tables =
      [{ rows := [⟨2, [(1, "x")]⟩],
         rawCells := [{ rowIndex := 1, columnIndex := 2, text := "x",
                        rowSpan := 1, columnSpan := 1 }] }] ∧
    (JsArray.mk 2 [(1, "x")] : JsArray String).get 0 = none ∧
    (none : Option String) ≠ some "" := by
  decide

/-- **C6** — witness: the amended theorem applied to the written position 1 of
`exC6`'s surviving row. -/
theorem C6_witness :
    (⟨2, [(1, "x")]⟩ : JsArray String) ∈
      (extractTable tblBlock (lookupCell exC6) (lookupBlock exC6)).rows ∧
    (⟨2, [(1, "x")]⟩ : JsArray String).get 1 = some "x" ∧
    ∃ c ∈ (extractTable tblBlock (lookupCell exC6) (lookupBlock exC6)).rawCells,
      c.columnIndex - 1 = 1 ∧ c.text = "x" :=
  ⟨by decide, by decide,
    C6_sparse_rows_amended tblBlock (lookupCell exC6) (lookupBlock exC6)
      ⟨2, [(1, "x")]⟩ (by decide) 1 "x" (by decide)⟩

/-! ### C7 — permutation behaviour of the decoder -/

/-- `find?` is permutation-invariant when at most one element satisfies the
predicate. -/
theorem find?_congr_perm_unique {α : Type} {p : α → Bool} {l l' : List α}
    (hp : l.Perm l')
    (hu : ∀ a ∈ l, ∀ b ∈ l, p a = true → p b = true → a = b) :
    l.find? p = l'.find? p := by
  cases hfl : l.find? p with
  | none =>
    cases hfl' : l'.find? p with
    | none => rfl
    | some b =>
      have hb := List.find?_some hfl'
      have hbmem : b ∈ l := hp.mem_iff.mpr (List.mem_of_find?_eq_some hfl')
      rw [List.find?_eq_none] at hfl
      exact absurd hb (by simpa using hfl b hbmem)
  | some a =>
    have ha := List.find?_some hfl
    have hamem := List.mem_of_find?_eq_some hfl
    cases hfl' : l'.find? p with
    | none =>
      rw [List.find?_eq_none] at hfl'
      have hmem' : a ∈ l' := hp.mem_iff.mp hamem
      exact absurd ha (by simpa using hfl' a hmem')
    | some b =>
      have hb := List.find?_some hfl'
      have hbmem : b ∈ l := hp.mem_iff.mpr (List.mem_of_find?_eq_some hfl')
      rw [hu a hamem b hbmem ha hb]

/-- Id-lookup over any type-filtered sublist is permutation-invariant when ids
are pairwise distinct. -/
theorem lookup_filter_perm (q : Block → Bool) {l l' : List Block}
    (hp : l.Perm l') (hn : (l.map Block.id).Nodup) (i : String) :
    (l.filter q).find? (fun b => b.id == i) =
      (l'.filter q).find? (fun b => b.id == i) := by
  apply find?_congr_perm_unique (hp.filter q)
  intro a ha b hb hpa hpb
  have h1 : a.id = i := eq_of_beq hpa
  have h2 : b.id = i := eq_of_beq hpb
  have hnf : ((l.filter q).map Block.id).Nodup :=
    List.Nodup.sublist ((List.filter_sublist l).map Block.id) hn
  exact List.inj_on_of_nodup_map hnf ha hb (h1.trans h2.symm)

theorem lookupBlock_perm {l l' : List Block}
    (hp : l.Perm l') (hn : (l.map Block.id).Nodup) :
    lookupBlock l = lookupBlock l' := by
  funext i
  apply find?_congr_perm_unique hp
  intro a ha b hb hpa hpb
  have h1 : a.id = i := eq_of_beq hpa
  have h2 : b.id = i := eq_of_beq hpb
  exact List.inj_on_of_nodup_map hn ha hb (h1.trans h2.symm)

theorem lookupValue_perm {l l' : List Block}
    (hp : l.Perm l') (hn : (l.map Block.id).Nodup) :
    lookupValue l = lookupValue l' := by
  funext i
  exact lookup_filter_perm isValueBlock hp hn i

theorem lookupCell_perm {l l' : List Block}
    (hp : l.Perm l') (hn : (l.map Block.id).Nodup) :
    lookupCell l = lookupCell l' := by
  funext i
  exact lookup_filter_perm (fun b => b.blockType == "CELL") hp hn i

/-- **C7** — amended: the decoder is a pure function (re-decoding the same
collection trivially yields identical output), and under pairwise-distinct
region ids, reordering the input changes no individual region's contribution:
every key-marker resolves to the same key/value pair and every table region
reconstructs to the same table; but the ORDER in which the key, table, layout
and full-text contributions are emitted tracks input iteration order (the
key- and table-region subsequences are merely permuted, so `keyValues`,
`tables`, layout sequences and full text are NOT order-invariant as emitted
sequences). -/
theorem C7_perm_amended (l l' : List Block)
    (hp : l.Perm l') (hn : (l.map Block.id).Nodup) :
    (∀ kb, keyContribution kb l = keyContribution kb l') ∧
    (∀ tb, extractTable tb (lookupCell l) (lookupBlock l) =
      extractTable tb (lookupCell l') (lookupBlock l')) ∧
    (keyBlocksOf l).Perm (keyBlocksOf l') ∧
    (tableBlocksOf l).Perm (tableBlocksOf l') := by
  have hb : lookupBlock l = lookupBlock l' := lookupBlock_perm hp hn
  have hv : lookupValue l = lookupValue l' := lookupValue_perm hp hn
  have hc : lookupCell l = lookupCell l' := lookupCell_perm hp hn
  refine ⟨?_, ?_, hp.filter _, hp.filter _⟩
  · intro kb
    unfold keyContribution
    rw [hv, hb]
  · intro tb
    rw [hc, hb]

/-- **C7** — counterexample.  Swapping two layout-title regions permutes the
decoded `layout.titles` sequence, refuting "reordering the input collection
yields the same layout sequences". -/
theorem C7_counterexample :
    List.Perm [titleA, titleB] [titleB, titleA] ∧
    (extractText [titleA, titleB]).layout.titles = ["A", "B"] ∧
    (extractText [titleB, titleA]).layout.titles = ["B", "A"] ∧
    (["A", "B"] : List String) ≠ ["B", "A"] := by
  decide

/-- **C7** — witness: the amended theorem applied to `exC2` and its reversal
(distinct ids), for the key region `keyK`. -/
theorem C7_witness :
    List.Perm exC2 exC2.reverse ∧ (exC2.map Block.id).Nodup ∧
    keyContribution keyK exC2 = keyContribution keyK exC2.reverse :=
  ⟨by decide, by decide,
    (C7_perm_amended exC2 exC2.reverse (by decide) (by decide)).1 keyK⟩

/-! ### C8 — the matched_code invariant -/

/-- **C8** — confirmed: `matched_code` is non-null iff the status is `exact`,
`fuzzy_high` or `fuzzy_medium`, or the oracle selected a candidate (the only
way `fuzzy_low` arises), or the result is a `no_match` whose code was taken
from the similarity candidate list (the best-effort fallback) — never from an
unresolved oracle call. -/
theorem C8_matched_code_invariant (extractedValue : Option String)
    (fieldName : String) (provider : String → List MasterDataItem)
    (resp : Option GptResponse) :
    (validateField extractedValue fieldName provider resp).matched_code.isSome = true ↔
      ((validateField extractedValue fieldName provider resp).status = VStatus.exact ∨
        (validateField extractedValue fieldName provider resp).status = VStatus.fuzzy_high ∨
        (validateField extractedValue fieldName provider resp).status = VStatus.fuzzy_medium ∨
        (validateField extractedValue fieldName provider resp).status = VStatus.fuzzy_low) ∨
      ((validateField extractedValue fieldName provider resp).status = VStatus.no_match ∧
        ∃ a ∈ fuzzyAlternatives (extractedValue.getD "") (provider (dataTypeFor fieldName)),
          (validateField extractedValue fieldName provider resp).matched_code =
            some a.code) := by
  by_cases htr : jsTruthyOpt extractedValue = false
  · simp only [validateField, htr, if_pos]
    simp
  · have htr' : (jsTruthyOpt extractedValue = false) = False := by
      simp only [eq_iff_iff, iff_false]
      exact htr
    simp only [validateField, htr', if_false]
    set v := extractedValue.getD "" with hv
    set md := provider (dataTypeFor fieldName) with hmd
    by_cases hlen : md.length = 0
    · rw [if_pos hlen]
      simp
    · rw [if_neg hlen]
      cases hex : md.find? (exactMatchPred v) with
      | some ex => simp
      | none =>
        cases halt : fuzzyAlternatives v md with
        | nil =>
          simp [validateFieldFuzzy, noMatchResult]
        | cons a0 rest =>
          by_cases h85 : 85 < a0.score
          · simp only [validateFieldFuzzy, if_pos h85]
            by_cases h90 : 90 < a0.score <;> simp [h90]
          · by_cases h60 : 60 < a0.score
            · cases hsel : selectBestMatchWithGPT resp ((a0 :: rest).take 10) with
              | some sel =>
                simp only [validateFieldFuzzy, if_neg h85, if_pos h60, hsel]
                by_cases h75 : (75 : Rat) < sel.confidence <;> simp [h75]
              | none =>
                simp only [validateFieldFuzzy, if_neg h85, if_pos h60, hsel]
                by_cases hc : a0.code = ""
                · simp [noMatchResult, hc]
                · constructor
                  · intro _
                    right
                    refine ⟨by simp [noMatchResult], a0, List.mem_cons_self _ _, ?_⟩
                    simp [noMatchResult, hc]
                  · intro _
                    simp [noMatchResult, hc]
            · simp only [validateFieldFuzzy, if_neg h85, if_neg h60]
              by_cases hc : a0.code = ""
              · simp [noMatchResult, hc]
              · constructor
                · intro _
                  right
                  refine ⟨by simp [noMatchResult], a0, List.mem_cons_self _ _, ?_⟩
                  simp [noMatchResult, hc]
                · intro _
                  simp [noMatchResult, hc]

end Fluxity
